import Mathlib

/-!
Shallow embedding of the capture-pals automation module
(`app/modules/capture_pals/capture_pals.py`).

The module drives a game UI: it presses keys, reads the screen through a
vision probe, and loops over two map zones ("partner island" and
"adventure island").  The interaction with the game is modelled by
oracle streams: a function `Nat → Bool` (or `Nat → Inp` for structured
queries) gives the answer of the n-th probe/click performed by the code,
and every `Timer`-bounded polling loop takes an explicit fuel argument
standing for the number of polls the timeout still allows.  Key presses
and clicks that the code issues are recorded as events so that theorems
can speak about which operations were invoked and in which order.
-/

namespace CapturePals

/-- Tri-state outcome of one capture attempt (the sentinel strings
returned by `capture_once` in the source). -/
inductive CaptureResult where
  | OK
  | CAP_REACHED
  | NO_COLLECT_HINT
deriving DecidableEq, Repr

/-- Source constant `MAX_FAILED_F_ATTEMPTS = 3` (consecutive ineffective
action-key presses before the daily cap is suspected). -/
def MAX_FAILED_F_ATTEMPTS : Nat := 3

/-- Source constant `PATROL_NO_COLLECT_MAX = 3`. -/
def PATROL_NO_COLLECT_MAX : Nat := 3

/-- Source constant `FIXED_NO_COLLECT_MAX = 3`. -/
def FIXED_NO_COLLECT_MAX : Nat := 3

/-- Embeds `wait_collect_hint`: poll the collect-hint probe starting at read
index `i`; return on the first positive read, or give up when the timer
expires (`fuel` is the number of extra polls the 3 s timeout allows).
Returns the outcome together with the index of the next unconsumed read.
Matches the source loop: one probe read happens before each timeout
check, so even `fuel = 0` performs one read. -/
def wait_collect_hint (reads : Nat → Bool) (i : Nat) : Nat → Bool × Nat
  | 0 => if reads i then (true, i + 1) else (false, i + 1)
  | fuel + 1 => if reads i then (true, i + 1) else wait_collect_hint reads (i + 1) fuel

/-- The action-press loop of `capture_once`: up to `n` times, press the
action key and read the probe once; a single negative read means the
capture succeeded (`OK`), and if every read stays positive the daily cap
is suspected (`CAP_REACHED`). -/
def capture_attempts (reads : Nat → Bool) (i : Nat) : Nat → CaptureResult
  | 0 => .CAP_REACHED
  | n + 1 => if reads i then capture_attempts reads (i + 1) n else .OK

/-- Embeds `capture_once`: press the interact key (no probe), wait for the
collect hint, then run the action-press loop. -/
def capture_once (reads : Nat → Bool) (fuel : Nat) : CaptureResult :=
  match wait_collect_hint reads 0 fuel with
  | (false, _) => .NO_COLLECT_HINT
  | (true, i) => capture_attempts reads i MAX_FAILED_F_ATTEMPTS

/-- Helper for the spec-side condition: the hint shows up again within
`fuel2 + 1` reads starting at index `i`. -/
def reappears_within (reads : Nat → Bool) (i fuel2 : Nat) : Bool :=
  (List.range (fuel2 + 1)).any fun m => reads (i + m)

/-- Transcription of the specification's stated condition for
`capture_once` returning `CAP_REACHED` (used only to compare the spec's
claim against the code): the hint was found, and either (a) it never
reads absent across the `MAX_FAILED_F_ATTEMPTS` action presses, or
(b) some action press reads absent (all earlier presses reading
present) and the hint then reappears within the reappearance window. -/
def spec_cap_cond (reads : Nat → Bool) (fuel fuel2 : Nat) : Bool :=
  let w := wait_collect_hint reads 0 fuel
  w.1 &&
    (((List.range MAX_FAILED_F_ATTEMPTS).all fun j => reads (w.2 + j))
      || ((List.range MAX_FAILED_F_ATTEMPTS).any fun j =>
            ((List.range j).all fun j2 => reads (w.2 + j2))
              && !(reads (w.2 + j)) && reappears_within reads (w.2 + j + 1) fuel2))

/-- Concrete probe-read stream: present, absent once, then present again
(the hint disappears on the first action press and immediately
reappears). -/
def c1reads : Nat → Bool := fun i => !(i == 1)

/-- Concrete probe-read stream: present exactly once, at the very first
read. -/
def c2reads : Nat → Bool := fun i => i == 0

/-- The two zone identities (the dictionary keys of the source). -/
inductive Key where
  | partner
  | adventure
deriving DecidableEq, Repr

/-- Per-island refresh/flow parameters (`IslandProfile` in the source;
the logging-only `name` field is dropped, the zone identity being
carried by `Key`). -/
structure IslandProfile where
  fixed_interval_sec : ℚ
  patrol_refresh_interval_sec : ℚ
  enter_wait_sec : ℚ
deriving DecidableEq, Repr

/-- Mode selector value meaning patrol (`MODE_PATROL = 1`; any other
integer selects fixed mode, matching the source comparisons). -/
def MODE_PATROL : Int := 1

/-- Embeds `island_period_sec` from `sync_capture_loop`: the period used to
compare which island refreshes more slowly. -/
def island_period_sec (profiles : Key → IslandProfile) (modes : Key → Int) (k : Key) : ℚ :=
  if modes k = MODE_PATROL then (profiles k).patrol_refresh_interval_sec
  else (profiles k).fixed_interval_sec

/-- Embeds `sync_every_sec` from `sync_capture_loop`. -/
def sync_every_sec (profiles : Key → IslandProfile) (modes : Key → Int) : ℚ :=
  max (island_period_sec profiles modes .partner)
    (island_period_sec profiles modes .adventure)

/-- Embeds `long_key` from `sync_capture_loop`: the island with the longer
period (ties go to the partner island, as in the source comparison). -/
def long_key (profiles : Key → IslandProfile) (modes : Key → Int) : Key :=
  if island_period_sec profiles modes .partner ≥ island_period_sec profiles modes .adventure
  then .partner else .adventure

/-- Embeds `short_key` from `sync_capture_loop`. -/
def short_key (profiles : Key → IslandProfile) (modes : Key → Int) : Key :=
  if long_key profiles modes = .partner then .adventure else .partner

/-- Which single-zone loop a zone is dispatched to. -/
inductive LoopKind where
  | fixedLoop
  | patrolLoop
deriving DecidableEq, Repr

/-- The dispatch decision taken by `run` after configuration is read. -/
inductive Plan where
  | noneSelected
  | syncPlan (partner_mode adventure_mode : Int)
  | seqPlan (loops : List (Key × LoopKind))
deriving DecidableEq, Repr

/-- Whether a plan is the synchronized scheduler. -/
def Plan.isSync : Plan → Bool
  | .syncPlan _ _ => true
  | _ => false

/-- The dispatch logic of `run` (lines 136-167 of the source): nothing
enabled is an error; synchronized mode requires the sync flag and both
enable flags; otherwise each enabled zone runs its own loop, partner
first, fixed when its mode selector is 0 and patrol otherwise. -/
def run_dispatch (enable_partner enable_adventure sync_enabled : Bool)
    (partner_mode_cfg adventure_mode_cfg : Int) : Plan :=
  if !enable_partner && !enable_adventure then .noneSelected
  else
    let partner_mode := if enable_partner then partner_mode_cfg else 0
    let adventure_mode := if enable_adventure then adventure_mode_cfg else 0
    if sync_enabled && enable_partner && enable_adventure then
      .syncPlan partner_mode adventure_mode
    else
      .seqPlan
        ((if enable_partner then
            [(Key.partner, if partner_mode = 0 then LoopKind.fixedLoop else LoopKind.patrolLoop)]
          else [])
          ++ (if enable_adventure then
            [(Key.adventure, if adventure_mode = 0 then LoopKind.fixedLoop else LoopKind.patrolLoop)]
          else []))

/-- Why a single-zone loop stopped. -/
inductive StopReason where
  | capReached
  | noHintStreakExceeded
  | enterFail
  | exitFail
deriving DecidableEq, Repr

/-- The `while self.auto.running` body of `capture_fixed_loop`.  `res n`
is the outcome of the n-th `capture_once` call; the returned pair is the
stop reason together with how many `capture_once` calls were made.
`none` models the externally owned running flag being cleared (the loop
exits without a report) — `fuel` bounds the number of iterations. -/
def capture_fixed_go (res : Nat → CaptureResult) : Nat → Nat → Nat → Option (StopReason × Nat)
  | 0, _, _ => none
  | fuel + 1, n, streak =>
    match res n with
    | .CAP_REACHED => some (.capReached, n + 1)
    | .NO_COLLECT_HINT =>
      if streak + 1 ≥ FIXED_NO_COLLECT_MAX then some (.noHintStreakExceeded, n + 1)
      else capture_fixed_go res fuel (n + 1) (streak + 1)
    | .OK => capture_fixed_go res fuel (n + 1) 0

/-- Embeds `capture_fixed_loop`: enter the map once (`enter_ok` is the outcome
of that `enter_map` call), then run the fixed-mode loop. -/
def capture_fixed_loop (enter_ok : Bool) (res : Nat → CaptureResult) (fuel : Nat) :
    Option (StopReason × Nat) :=
  if enter_ok then capture_fixed_go res fuel 0 0 else some (.enterFail, 0)

/-- The `while self.auto.running` body of `capture_patrol_loop`: each
round enters the map (`enter n`), captures once (`res n`), classifies,
then exits (`exit_ok n`).  Classification breaks happen before the
exit attempt, as in the source. -/
def capture_patrol_go (enter exit_ok : Nat → Bool) (res : Nat → CaptureResult) :
    Nat → Nat → Nat → Option (StopReason × Nat)
  | 0, _, _ => none
  | fuel + 1, n, streak =>
    if enter n then
      match res n with
      | .CAP_REACHED => some (.capReached, n + 1)
      | .NO_COLLECT_HINT =>
        if streak + 1 ≥ PATROL_NO_COLLECT_MAX then some (.noHintStreakExceeded, n + 1)
        else
          if exit_ok n then capture_patrol_go enter exit_ok res fuel (n + 1) (streak + 1)
          else some (.exitFail, n + 1)
      | .OK =>
        if exit_ok n then capture_patrol_go enter exit_ok res fuel (n + 1) 0
        else some (.exitFail, n + 1)
    else some (.enterFail, n)

/-- Embeds `capture_patrol_loop`. -/
def capture_patrol_loop (enter exit_ok : Nat → Bool) (res : Nat → CaptureResult)
    (fuel : Nat) : Option (StopReason × Nat) :=
  capture_patrol_go enter exit_ok res fuel 0 0

/-- One oracle answer for the probes/clicks performed by `enter_map`:
whether the in-map task icon is detected, whether the island-selector
click finds its target, whether the start-button click finds its
target, and whether the 25 s timer reports expiry at this check. -/
structure EnterInp where
  inMap : Bool
  clickIsland : Bool
  clickStart : Bool
  reached : Bool
deriving DecidableEq, Repr

/-- Clicks issued by `enter_map` (recorded per `click_element` call). -/
inductive EnterEv where
  | clickIslandEv
  | clickStartEv
deriving DecidableEq, Repr

/-- The defensive 3-attempt start-button click loop of `enter_map`:
stop at the first successful click.  Returns whether a click landed,
the next oracle index, and the click attempts issued. -/
def click_start_attempts (om : Nat → EnterInp) (t : Nat) : Nat → Bool × Nat × List EnterEv
  | 0 => (false, t, [])
  | n + 1 =>
    if (om t).clickStart then (true, t + 1, [.clickStartEv])
    else
      let r := click_start_attempts om (t + 1) n
      (r.1, r.2.1, .clickStartEv :: r.2.2)

/-- The inner polling loop of `enter_map` (the source's inner
`while True`): re-check the in-map icon, try to click the start button,
re-check, then test the overall timer.  `start_found` persists across
iterations exactly as in the source.  `none` models running out of
fuel with no decision. -/
def enter_map_inner (om : Nat → EnterInp) : Nat → Nat → Bool → Option Bool × Nat × List EnterEv
  | 0, t, _ => (none, t, [])
  | fuel + 1, t, start_found =>
    if (om t).inMap then (some true, t + 1, [])
    else
      let c := click_start_attempts om (t + 1) 3
      let sf := start_found || c.1
      if sf then
        if (om c.2.1).inMap then (some true, c.2.1 + 1, c.2.2)
        else if (om (c.2.1 + 1)).reached then (some false, c.2.1 + 2, c.2.2)
        else
          let r := enter_map_inner om fuel (c.2.1 + 2) sf
          (r.1, r.2.1, c.2.2 ++ r.2.2)
      else
        if (om c.2.1).reached then (some false, c.2.1 + 1, c.2.2)
        else
          let r := enter_map_inner om fuel (c.2.1 + 1) sf
          (r.1, r.2.1, c.2.2 ++ r.2.2)

/-- Embeds `enter_map`: immediate success if the in-map icon is already there;
otherwise click the island selector — a failed selector click returns
false at once (the source logs a diagnostic and returns) — then run the
inner polling loop. -/
def enter_map (om : Nat → EnterInp) (fuel : Nat) : Option Bool × List EnterEv :=
  if (om 0).inMap then (some true, [])
  else if (om 1).clickIsland then
    let r := enter_map_inner om fuel 2 false
    (r.1, .clickIslandEv :: r.2.2)
  else (some false, [.clickIslandEv])

/-- Constant oracle: never in-map, no click ever lands, timer never
reports expiry. -/
def c7om : Nat → EnterInp := fun _ => ⟨false, false, false, false⟩

/-- Constant oracle: never in-map, every click lands, timer never
reports expiry. -/
def c7omOk : Nat → EnterInp := fun _ => ⟨false, true, true, false⟩

/-- Constant oracle: already in-map. -/
def c9omEnter : Nat → EnterInp := fun _ => ⟨true, true, true, false⟩

/-- One oracle answer for the probes/clicks performed by
`exit_map_to_island_select`. -/
structure ExitInp where
  inMap : Bool
  clickConfirm : Bool
  onSelect : Bool
  reached : Bool
deriving DecidableEq, Repr

/-- Key presses and clicks issued by `exit_map_to_island_select`. -/
inductive ExitEv where
  | pressEscEv
  | clickExitEv
  | clickConfirmEv
deriving DecidableEq, Repr

/-- The defensive 3-attempt confirm-button click loop, stopping at the
first successful click. -/
def click_confirm_attempts (om : Nat → ExitInp) (t : Nat) : Nat → Nat × List ExitEv
  | 0 => (t, [])
  | n + 1 =>
    if (om t).clickConfirm then (t + 1, [.clickConfirmEv])
    else
      let r := click_confirm_attempts om (t + 1) n
      (r.1, .clickConfirmEv :: r.2)

/-- Embeds `exit_map_to_island_select`: while the timer runs, if in-map press
the menu key, click the exit button three times (results ignored by the
source), click the confirm button (up to three attempts); then test for
the island-select page and for timer expiry. -/
def exit_map_to_island_select (om : Nat → ExitInp) : Nat → Nat → Option Bool × Nat × List ExitEv
  | 0, t => (none, t, [])
  | fuel + 1, t =>
    if (om t).inMap then
      let c := click_confirm_attempts om (t + 1 + 3) 3
      let evs := [ExitEv.pressEscEv, .clickExitEv, .clickExitEv, .clickExitEv] ++ c.2
      if (om c.1).onSelect then (some true, c.1 + 1, evs)
      else if (om (c.1 + 1)).reached then (some false, c.1 + 2, evs)
      else
        let r := exit_map_to_island_select om fuel (c.1 + 2)
        (r.1, r.2.1, evs ++ r.2.2)
    else
      if (om (t + 1)).onSelect then (some true, t + 2, [])
      else if (om (t + 2)).reached then (some false, t + 3, [])
      else
        let r := exit_map_to_island_select om fuel (t + 3)
        (r.1, r.2.1, r.2.2)

/-- Constant oracle: not in-map and already on the island-select
page. -/
def c9omExit : Nat → ExitInp := fun _ => ⟨false, true, true, false⟩

/-- One oracle answer for the environment interactions of
`sync_capture_loop`: island-select page detection, outcome of an
`exit_map_to_island_select` call, outcome of an `enter_map` call,
outcome of a `capture_once` call, whether the interleave period has
elapsed (`now - last_switch >= sync_every_sec`), and whether
`wait_for_start_page` lands on the island-select page. -/
structure Inp where
  onSelect : Bool
  exitOk : Bool
  enterOk : Bool
  captureRes : CaptureResult
  needSwitch : Bool
  waitPageSelect : Bool
deriving DecidableEq, Repr

/-- The mutable per-run state of `sync_capture_loop`: the `done`,
`error` and `no_collect_streak` dictionaries, plus the index of the
next oracle query. -/
structure SyncState where
  done : Key → Bool
  error : Key → Bool
  streak : Key → Nat
  t : Nat

/-- Operations the synchronized scheduler invokes on a zone, recorded
in order: an `enter_map` call for the zone (inside `enter_island`), a
`capture_once` call for the zone, and the moment a zone is retired
(its `done` or `error` flag set). -/
inductive SEv where
  | enterMapEv (k : Key)
  | captureEv (k : Key)
  | retireEv (k : Key)
deriving DecidableEq, Repr

/-- Set a zone's `done` flag. -/
def setDone (k : Key) (s : SyncState) : SyncState :=
  { s with done := fun j => if j = k then true else s.done j }

/-- Set a zone's `error` flag. -/
def setError (k : Key) (s : SyncState) : SyncState :=
  { s with error := fun j => if j = k then true else s.error j }

/-- Set a zone's `no_collect_streak` counter. -/
def setStreak (k : Key) (v : Nat) (s : SyncState) : SyncState :=
  { s with streak := fun j => if j = k then v else s.streak j }

/-- Consume one oracle query. -/
def bumpT (s : SyncState) : SyncState := { s with t := s.t + 1 }

/-- Holds when `done[k] or error[k]`: the zone is never to be visited again. -/
def retired (s : SyncState) (k : Key) : Bool := s.done k || s.error k

/-- The `enter_map` call inside `enter_island`, with its error-marking
on failure. -/
def enter_island_go (om : Nat → Inp) (k : Key) (s : SyncState) :
    Bool × SyncState × List SEv :=
  if (om s.t).enterOk then (true, bumpT s, [.enterMapEv k])
  else (false, setError k (bumpT s), [.enterMapEv k, .retireEv k])

/-- Embeds `enter_island` from `sync_capture_loop`: if not on the island-select
page first exit the map (a failure there returns false without marking
the island), then call `enter_map`, marking the island `error` when the
entry fails. -/
def enter_island (om : Nat → Inp) (k : Key) (s : SyncState) :
    Bool × SyncState × List SEv :=
  if (om s.t).onSelect then enter_island_go om k (bumpT s)
  else if (om (s.t + 1)).exitOk then enter_island_go om k (bumpT (bumpT s))
  else (false, bumpT (bumpT s), [])

/-- Embeds `mark_result` from `sync_capture_loop`: classify one capture result
for zone `k`; returns whether the scheduler must stop using this zone
right now, the updated state, and the retirement event if one
happened. -/
def mark_result (modes : Key → Int) (k : Key) (result : CaptureResult) (s : SyncState) :
    Bool × SyncState × List SEv :=
  match result with
  | .CAP_REACHED => (true, setDone k s, [.retireEv k])
  | .NO_COLLECT_HINT =>
    let limit := if modes k = MODE_PATROL then PATROL_NO_COLLECT_MAX else FIXED_NO_COLLECT_MAX
    let s1 := setStreak k (s.streak k + 1) s
    if s.streak k + 1 ≥ limit then (true, setError k s1, [.retireEv k])
    else (false, s1, [])
  | .OK => (false, setStreak k 0 s, [])

/-- Embeds `leave_to_select` from `sync_capture_loop`: success immediately when
already on the island-select page, otherwise the outcome of
`exit_map_to_island_select`. -/
def leave_to_select (om : Nat → Inp) (s : SyncState) : Bool × SyncState :=
  if (om s.t).onSelect then (true, bumpT s)
  else ((om (s.t + 1)).exitOk, bumpT (bumpT s))

/-- Embeds `do_one_round` from `sync_capture_loop`: one `capture_once` on zone
`k` followed by an exit back to island-select (both the patrol and the
fixed branch of the source exit identically), marking the island
`error` when the exit fails.  Returns the capture result. -/
def do_one_round (om : Nat → Inp) (k : Key) (s : SyncState) :
    CaptureResult × SyncState × List SEv :=
  let r := (om s.t).captureRes
  let s1 := bumpT s
  if (om s1.t).exitOk then (r, bumpT s1, [.captureEv k])
  else (r, setError k (bumpT s1), [.captureEv k, .retireEv k])

/-- The interleave visit shared by both mode branches of the main loop:
enter the idle zone, and if entry succeeded capture one round there and
classify it; afterwards re-enter the resident zone unless it has been
retired meanwhile. -/
def sync_interleave (om : Nat → Inp) (modes : Key → Int) (current other : Key)
    (s : SyncState) : SyncState × List SEv :=
  let e := enter_island om other s
  let p :=
    if e.1 then
      let d := do_one_round om other e.2.1
      let m := mark_result modes other d.1 d.2.1
      (m.2.1, e.2.2 ++ (d.2.2 ++ m.2.2))
    else (e.2.1, e.2.2)
  if !(retired p.1 current) then
    let e2 := enter_island om current p.1
    (e2.2.1, p.2 ++ e2.2.2)
  else p

/-- The capture part of one main-loop iteration of `sync_capture_loop`
(from the `capture_once` on the resident zone to the end of the
iteration).  The outcome is `none` when the scheduler returns, or
`some (current, other, s)` when the `while` loop runs another
iteration. -/
def sync_capture_phase (om : Nat → Inp) (modes : Key → Int) (current other : Key)
    (s : SyncState) : Option (Key × Key × SyncState) × List SEv :=
  let r := (om s.t).captureRes
  let m := mark_result modes current r (bumpT s)
  let s1 := m.2.1
  let evs1 := SEv.captureEv current :: m.2.2
  if m.1 then
    let l := leave_to_select om s1
    if l.1 then (some (current, other, l.2), evs1) else (none, evs1)
  else
    let need_switch := !(retired s1 other) && (om s1.t).needSwitch
    let s2 := bumpT s1
    if modes current = MODE_PATROL then
      let l := leave_to_select om s2
      if !l.1 then (none, evs1)
      else if need_switch then
        let it := sync_interleave om modes current other l.2
        (some (current, other, it.1), evs1 ++ it.2)
      else
        let e := enter_island om current l.2
        (some (current, other, e.2.1), evs1 ++ e.2.2)
    else
      if need_switch then
        let l := leave_to_select om s2
        if !l.1 then (none, evs1)
        else
          let it := sync_interleave om modes current other l.2
          (some (current, other, it.1), evs1 ++ it.2)
      else (some (current, other, s2), evs1)

/-- One full iteration of the main `while` loop of `sync_capture_loop`:
terminate when both zones are retired; swap residency when the resident
zone is retired (terminating when the other zone is retired too, and
skipping to the next iteration when it cannot be entered); then run the
capture phase. -/
def sync_step (om : Nat → Inp) (modes : Key → Int) (current other : Key)
    (s : SyncState) : Option (Key × Key × SyncState) × List SEv :=
  if retired s .partner && retired s .adventure then (none, [])
  else if retired s current then
    if retired s other then (none, [])
    else
      let e := enter_island om other s
      if e.1 then
        let p := sync_capture_phase om modes other current e.2.1
        (p.1, e.2.2 ++ p.2)
      else (some (other, current, e.2.1), e.2.2)
  else sync_capture_phase om modes current other s

/-- The main `while self.auto.running` loop of `sync_capture_loop`;
`fuel` bounds the number of iterations (it also models the externally
owned running flag being cleared). -/
def sync_main (om : Nat → Inp) (modes : Key → Int) :
    Nat → Key → Key → SyncState → List SEv
  | 0, _, _, _ => []
  | fuel + 1, current, other, s =>
    match sync_step om modes current other s with
    | (none, evs) => evs
    | (some (c, o, s1), evs) => evs ++ sync_main om modes fuel c o s1

/-- The all-false/zero initial scheduler state. -/
def initState : SyncState := ⟨fun _ => false, fun _ => false, fun _ => 0, 0⟩

/-- The startup phase of `sync_capture_loop`: visit the longer-period
island for one full round first, then enter the shorter-period island
and make it resident.  The outcome is `none` when the scheduler gives
up before reaching the main loop, or `some (current, other, s)` with
`current = short_key`. -/
def sync_startup (om : Nat → Inp) (profiles : Key → IslandProfile) (modes : Key → Int) :
    Option (Key × Key × SyncState) × List SEv :=
  let lk := long_key profiles modes
  let sk := short_key profiles modes
  let e1 := enter_island om lk initState
  if !e1.1 then
    let e2 := enter_island om sk e1.2.1
    if !e2.1 then (none, e1.2.2 ++ e2.2.2)
    else (some (sk, lk, e2.2.1), e1.2.2 ++ e2.2.2)
  else
    let d := do_one_round om lk e1.2.1
    let m := mark_result modes lk d.1 d.2.1
    let s3 := m.2.1
    let evs3 := e1.2.2 ++ (d.2.2 ++ m.2.2)
    let s4opt : Option SyncState :=
      if (om s3.t).onSelect then some (bumpT s3)
      else
        let l := leave_to_select om (bumpT s3)
        if l.1 then some l.2
        else if (om l.2.t).waitPageSelect then some (bumpT l.2) else none
    match s4opt with
    | none => (none, evs3)
    | some s4 =>
      let e2 := enter_island om sk s4
      if !e2.1 then (none, evs3 ++ e2.2.2)
      else (some (sk, lk, e2.2.1), evs3 ++ e2.2.2)

/-- Embeds `sync_capture_loop`: the startup phase followed by the main loop.
The value is the ordered list of zone operations performed. -/
def sync_capture_loop (om : Nat → Inp) (profiles : Key → IslandProfile)
    (modes : Key → Int) (fuel : Nat) : List SEv :=
  match sync_startup om profiles modes with
  | (none, evs) => evs
  | (some (c, o, s), evs) => evs ++ sync_main om modes fuel c o s

/-- No `enter_map` or `capture_once` operation for zone `k` occurs in
the list. -/
def noInvoke (k : Key) (l : List SEv) : Prop :=
  ∀ e ∈ l, e ≠ SEv.enterMapEv k ∧ e ≠ SEv.captureEv k

/-- Every suffix of the list that follows a retirement of zone `k`
contains no `enter_map` or `capture_once` operation for `k`. -/
def safeAfter (k : Key) (l : List SEv) : Prop :=
  ∀ l1 l2, l = l1 ++ SEv.retireEv k :: l2 → noInvoke k l2

/-- Concrete profiles for evaluation: partner period 1 s, adventure
period 2 s (both fixed mode below, so the adventure island is the
longer-period island). -/
def c5profiles : Key → IslandProfile := fun k =>
  match k with
  | .partner => ⟨1, 1, 5⟩
  | .adventure => ⟨2, 2, 5⟩

/-- Both zones in fixed mode. -/
def c5modes : Key → Int := fun _ => 0

/-- Oracle where everything succeeds and the very first capture hits the
daily cap. -/
def c5om : Nat → Inp := fun _ => ⟨true, true, true, .CAP_REACHED, false, true⟩

/-- The scenario of the specification: partner island fixed mode with a
35 s interval, adventure island patrol mode with a 1200 s refresh
interval. -/
def c6profiles : Key → IslandProfile := fun k =>
  match k with
  | .partner => ⟨35, 2, 4⟩
  | .adventure => ⟨300, 1200, 4⟩

/-- Scenario modes: partner fixed, adventure patrol. -/
def c6modes : Key → Int := fun k =>
  match k with
  | .partner => 0
  | .adventure => 1

/-- Oracle where every page probe, entry, exit and capture succeeds. -/
def c6om : Nat → Inp := fun _ => ⟨true, true, true, .OK, false, true⟩

theorem capture_attempts_cap_iff (reads : Nat → Bool) (n : Nat) :
    ∀ i, (capture_attempts reads i n = .CAP_REACHED ↔ ∀ j < n, reads (i + j) = true) := by
  induction n with
  | zero => intro i; simp [capture_attempts]
  | succ n ih =>
    intro i
    by_cases h : reads i = true
    · rw [capture_attempts, if_pos h, ih (i + 1)]
      constructor
      · intro hall j hj
        match j with
        | 0 => simpa using h
        | j + 1 =>
          have hh := hall j (by omega)
          have e : i + 1 + j = i + (j + 1) := by omega
          rwa [e] at hh
      · intro hall j hj
        have hh := hall (j + 1) (by omega)
        have e : i + (j + 1) = i + 1 + j := by omega
        rwa [e] at hh
    · rw [capture_attempts, if_neg h]
      constructor
      · intro hc; simp at hc
      · intro hall
        exact absurd (by simpa using hall 0 (by omega)) h

/-- C1 counterexample: on the reading stream `c1reads` the hint is
present, disappears on the first action press, and immediately
reappears; the specification's condition (its clause (b)) therefore
claims `CAP_REACHED`, but `capture_once` returns `OK`. -/
theorem C1_counterexample :
    capture_once c1reads 3 = .OK ∧ spec_cap_cond c1reads 3 2 = true := by decide

/-- C1 (amended): `capture_once` returns `CAP_REACHED` if and only if
the collect hint is detected present within the appearance timeout and
the probe still reads present after each of the
`MAX_FAILED_F_ATTEMPTS` action-key presses; there is no reappearance
check, so a reappearance after a confirmed absence yields `OK`. -/
theorem C1_cap_reached_iff (reads : Nat → Bool) (fuel : Nat) :
    capture_once reads fuel = .CAP_REACHED ↔
      ((wait_collect_hint reads 0 fuel).1 = true
        ∧ ∀ j < MAX_FAILED_F_ATTEMPTS, reads ((wait_collect_hint reads 0 fuel).2 + j) = true) := by
  unfold capture_once
  rcases hw : wait_collect_hint reads 0 fuel with ⟨found, i⟩
  cases found
  · simp [hw]
  · simpa [hw] using capture_attempts_cap_iff reads MAX_FAILED_F_ATTEMPTS i

/-- One negative probe read ends the action loop with `OK`. -/
theorem capture_attempts_head_false {reads : Nat → Bool} {i : Nat} (n : Nat)
    (h : reads i = false) : capture_attempts reads i (n + 1) = .OK := by
  simp [capture_attempts, h]

/-- A positive first probe read makes `wait_collect_hint` accept
immediately. -/
theorem wait_collect_hint_head_true {reads : Nat → Bool} {i : Nat} (fuel : Nat)
    (h : reads i = true) : wait_collect_hint reads i fuel = (true, i + 1) := by
  cases fuel <;> simp [wait_collect_hint, h]

/-- C2 counterexample: on the reading stream `c2reads` only the very
first read is positive (so no three consecutive positive reads ever
occur) and only the second read is negative before the hint state used
by the code ends; that single positive read leaves the
`NO_COLLECT_HINT` path and that single negative read confirms absence,
yielding `OK`. -/
theorem C2_counterexample :
    capture_once c2reads 3 = .OK
      ∧ c2reads 0 = true ∧ c2reads 1 = false ∧ c2reads 2 = false := by decide

/-- C2 (amended): `capture_once` accepts the collect hint as present
after a single positive probe read and accepts absence after a single
negative read — there is no stable-count debouncing: if the first read
is positive and the read after the first action press is negative, the
result is `OK`. -/
theorem C2_single_read_suffices (reads : Nat → Bool) (fuel : Nat)
    (h0 : reads 0 = true) (h1 : reads 1 = false) :
    capture_once reads fuel = .OK := by
  have hw : wait_collect_hint reads 0 fuel = (true, 0 + 1) :=
    wait_collect_hint_head_true fuel h0
  have ha : capture_attempts reads 1 MAX_FAILED_F_ATTEMPTS = .OK :=
    capture_attempts_head_false 2 h1
  simp only [capture_once, hw]
  simpa using ha

/-- Witness for C2's amended theorem. -/
theorem C2_witness : capture_once c2reads 7 = .OK :=
  C2_single_read_suffices c2reads 7 rfl rfl

/-- C3: the scheduler's interleave period is the maximum of the two
islands' characteristic periods (patrol refresh interval in patrol
mode, fixed interval otherwise). -/
theorem C3_sync_every_sec_max (profiles : Key → IslandProfile) (modes : Key → Int)
    (h1 : 0 < island_period_sec profiles modes .partner)
    (h2 : 0 < island_period_sec profiles modes .adventure) :
    sync_every_sec profiles modes
        = max (island_period_sec profiles modes .partner)
            (island_period_sec profiles modes .adventure)
      ∧ ∀ k, island_period_sec profiles modes k ≤ sync_every_sec profiles modes := by
  refine ⟨rfl, ?_⟩
  intro k
  cases k
  · exact le_max_left _ _
  · exact le_max_right _ _

/-- Witness for C3. -/
theorem C3_witness :
    sync_every_sec (fun _ => ⟨1, 2, 5⟩) (fun _ => 0)
        = max (island_period_sec (fun _ => ⟨1, 2, 5⟩) (fun _ => 0) .partner)
            (island_period_sec (fun _ => ⟨1, 2, 5⟩) (fun _ => 0) .adventure)
      ∧ ∀ k, island_period_sec (fun _ => ⟨1, 2, 5⟩) (fun _ => 0) k
          ≤ sync_every_sec (fun _ => ⟨1, 2, 5⟩) (fun _ => 0) :=
  C3_sync_every_sec_max (fun _ => ⟨1, 2, 5⟩) (fun _ => 0)
    (by simp [island_period_sec, MODE_PATROL]) (by simp [island_period_sec, MODE_PATROL])

/-- C10: `run` dispatches to the synchronized scheduler exactly when the
sync flag and both per-zone enable flags are set; in every other
configuration with at least one zone enabled, each enabled zone runs
its own single-zone loop — fixed when its mode selector is 0, patrol
otherwise — with the partner island's loop placed before the adventure
island's. -/
theorem C10_dispatch (ep ea se : Bool) (pm am : Int) :
    (run_dispatch ep ea se pm am).isSync = (se && ep && ea)
      ∧ (¬(se = true ∧ ep = true ∧ ea = true) → (ep = true ∨ ea = true) →
          run_dispatch ep ea se pm am
            = .seqPlan
                ((if ep then
                    [(Key.partner, if pm = 0 then LoopKind.fixedLoop else LoopKind.patrolLoop)]
                  else [])
                  ++ (if ea then
                    [(Key.adventure, if am = 0 then LoopKind.fixedLoop else LoopKind.patrolLoop)]
                  else []))) := by
  cases ep <;> cases ea <;> cases se <;> simp [run_dispatch, Plan.isSync]

/-- Witness for C10. -/
theorem C10_witness :
    run_dispatch true true false 0 1
      = Plan.seqPlan [(Key.partner, .fixedLoop), (Key.adventure, .patrolLoop)] := by
  have h := (C10_dispatch true true false 0 1).2 (by simp) (Or.inl rfl)
  simpa using h

/-- When the timer oracle never reports expiry, the inner polling loop
of `enter_map` cannot decide false. -/
theorem enter_map_inner_ne_false (om : Nat → EnterInp)
    (hr : ∀ n, (om n).reached = false) :
    ∀ fuel t sf, (enter_map_inner om fuel t sf).1 ≠ some false := by
  intro fuel
  induction fuel with
  | zero => intro t sf; simp [enter_map_inner]
  | succ f ih =>
    intro t sf
    simp only [enter_map_inner, hr, Bool.false_eq_true, if_false]
    split
    · simp
    · split
      · split
        · simp
        · exact ih _ _
      · exact ih _ _

/-- C7 counterexample: with an oracle on which the in-map icon is never
seen, the island-selector click never lands, and the timer never
reports expiry, `enter_map` returns false after its very first selector
click — i.e. it returns false before any timeout. -/
theorem C7_counterexample :
    enter_map c7om 5 = (some false, [EnterEv.clickIslandEv])
      ∧ (c7om 0).reached = false ∧ (c7om 1).reached = false := by decide

/-- C7 (amended): `enter_map` returns false only when the overall
timeout elapses or when the island-selector click fails (a failed
selector click returns false immediately with a diagnostic); when the
selector click always lands and the timer never expires, it never
returns false. -/
theorem C7_false_only_on_timeout_or_selector (om : Nat → EnterInp) (fuel : Nat)
    (hclick : ∀ n, (om n).clickIsland = true) (hreach : ∀ n, (om n).reached = false) :
    (enter_map om fuel).1 ≠ some false := by
  unfold enter_map
  by_cases h0 : (om 0).inMap
  · simp [h0]
  · simp only [h0, Bool.false_eq_true, if_false, hclick 1, if_true]
    exact enter_map_inner_ne_false om hreach fuel 2 false

/-- Witness for C7's amended theorem. -/
theorem C7_witness : (enter_map c7omOk 3).1 ≠ some false :=
  C7_false_only_on_timeout_or_selector c7omOk 3 (fun _ => rfl) (fun _ => rfl)

/-- C8: if every `capture_once` call reports `NO_COLLECT_HINT` (and
entries/exits succeed), the fixed-mode loop stops after exactly
`FIXED_NO_COLLECT_MAX = 3` capture calls and the patrol-mode loop after
exactly `PATROL_NO_COLLECT_MAX = 3`, both reporting the streak-exceeded
error and never the cap-reached outcome. -/
theorem C8_streak_termination (res : Nat → CaptureResult) (enter exit_ok : Nat → Bool)
    (f1 f2 : Nat)
    (hres : ∀ n, res n = .NO_COLLECT_HINT)
    (hent : ∀ n, enter n = true) (hexit : ∀ n, exit_ok n = true)
    (hf1 : 3 ≤ f1) (hf2 : 3 ≤ f2) :
    capture_fixed_loop true res f1 = some (.noHintStreakExceeded, 3)
      ∧ capture_patrol_loop enter exit_ok res f2 = some (.noHintStreakExceeded, 3)
      ∧ StopReason.noHintStreakExceeded ≠ StopReason.capReached := by
  obtain ⟨a, rfl⟩ : ∃ a, f1 = a + 3 := ⟨f1 - 3, by omega⟩
  obtain ⟨b, rfl⟩ : ∃ b, f2 = b + 3 := ⟨f2 - 3, by omega⟩
  refine ⟨?_, ?_, by decide⟩
  · show capture_fixed_go res (a + 3) 0 0 = _
    rw [show a + 3 = a + 2 + 1 from rfl, capture_fixed_go]
    simp only [hres, FIXED_NO_COLLECT_MAX]
    rw [if_neg (by omega), show a + 2 = a + 1 + 1 from rfl, capture_fixed_go]
    simp only [hres, FIXED_NO_COLLECT_MAX]
    rw [if_neg (by omega), capture_fixed_go]
    simp only [hres, FIXED_NO_COLLECT_MAX]
    rw [if_pos (by omega)]
  · show capture_patrol_go enter exit_ok res (b + 3) 0 0 = _
    rw [show b + 3 = b + 2 + 1 from rfl, capture_patrol_go]
    simp only [hres, hent, hexit, PATROL_NO_COLLECT_MAX, if_true]
    rw [show b + 2 = b + 1 + 1 from rfl, capture_patrol_go]
    simp only [hres, hent, hexit, PATROL_NO_COLLECT_MAX, if_true]
    rw [capture_patrol_go]
    simp only [hres, hent, hexit, PATROL_NO_COLLECT_MAX, if_true]
    norm_num

/-- Witness for C8. -/
theorem C8_witness :
    capture_fixed_loop true (fun _ => CaptureResult.NO_COLLECT_HINT) 3
        = some (StopReason.noHintStreakExceeded, 3)
      ∧ capture_patrol_loop (fun _ => true) (fun _ => true)
          (fun _ => CaptureResult.NO_COLLECT_HINT) 3
        = some (StopReason.noHintStreakExceeded, 3)
      ∧ StopReason.noHintStreakExceeded ≠ StopReason.capReached :=
  C8_streak_termination (fun _ => CaptureResult.NO_COLLECT_HINT) (fun _ => true)
    (fun _ => true) 3 3 (fun _ => rfl) (fun _ => rfl) (fun _ => rfl)
    (by decide) (by decide)

/-- C9: both map-transition controllers are idempotent with respect to
already being in the target state — `enter_map` returns true with no
clicks issued when the in-map icon is already detected, and
`exit_map_to_island_select` returns true with no key presses or clicks
when the island-select page is detected and the in-map icon is not. -/
theorem C9_idempotent (ome : Nat → EnterInp) (omx : Nat → ExitInp) (fe fx : Nat)
    (h1 : (ome 0).inMap = true)
    (h2 : (omx 0).inMap = false) (h3 : (omx 1).onSelect = true) :
    enter_map ome fe = (some true, [])
      ∧ exit_map_to_island_select omx (fx + 1) 0 = (some true, 2, []) := by
  constructor
  · simp [enter_map, h1]
  · rw [exit_map_to_island_select]
    simp [h2, h3]

/-- Witness for C9. -/
theorem C9_witness :
    enter_map c9omEnter 4 = (some true, [])
      ∧ exit_map_to_island_select c9omExit (0 + 1) 0 = (some true, 2, []) :=
  C9_idempotent c9omEnter c9omExit 4 0 rfl rfl rfl

/-- C4: the no-collect streak resets to 0 on any `OK` result,
increments by exactly 1 on each `NO_COLLECT_HINT` result, and is left
unchanged by a `CAP_REACHED` result — in the sync scheduler's
`mark_result`, and likewise in the fixed and patrol single-zone loops,
whose next iteration runs with streak 0 after `OK`, with streak + 1
after a below-threshold `NO_COLLECT_HINT`, and which stop (streak
untouched) on `CAP_REACHED`. -/
theorem C4_streak_rule :
    (∀ (modes : Key → Int) (k : Key) (r : CaptureResult) (s : SyncState),
        (mark_result modes k r s).2.1.streak k
          = match r with
            | .OK => 0
            | .NO_COLLECT_HINT => s.streak k + 1
            | .CAP_REACHED => s.streak k)
    ∧ (∀ (res : Nat → CaptureResult) (fuel n streak : Nat),
        (res n = .OK →
          capture_fixed_go res (fuel + 1) n streak = capture_fixed_go res fuel (n + 1) 0)
        ∧ (res n = .NO_COLLECT_HINT → streak + 1 < FIXED_NO_COLLECT_MAX →
          capture_fixed_go res (fuel + 1) n streak
            = capture_fixed_go res fuel (n + 1) (streak + 1))
        ∧ (res n = .CAP_REACHED →
          capture_fixed_go res (fuel + 1) n streak = some (.capReached, n + 1)))
    ∧ (∀ (enter exit_ok : Nat → Bool) (res : Nat → CaptureResult) (fuel n streak : Nat),
        enter n = true → exit_ok n = true →
        ((res n = .OK →
          capture_patrol_go enter exit_ok res (fuel + 1) n streak
            = capture_patrol_go enter exit_ok res fuel (n + 1) 0)
        ∧ (res n = .NO_COLLECT_HINT → streak + 1 < PATROL_NO_COLLECT_MAX →
          capture_patrol_go enter exit_ok res (fuel + 1) n streak
            = capture_patrol_go enter exit_ok res fuel (n + 1) (streak + 1))
        ∧ (res n = .CAP_REACHED →
          capture_patrol_go enter exit_ok res (fuel + 1) n streak
            = some (.capReached, n + 1)))) := by
  refine ⟨?_, ?_, ?_⟩
  · intro modes k r s
    cases r <;> simp [mark_result, setDone, setStreak, setError]
    split <;> split <;> simp
  · intro res fuel n streak
    refine ⟨?_, ?_, ?_⟩
    · intro h
      rw [capture_fixed_go]
      simp [h]
    · intro h hlt
      simp only [FIXED_NO_COLLECT_MAX] at hlt
      rw [capture_fixed_go]
      simp only [h, FIXED_NO_COLLECT_MAX]
      rw [if_neg (by omega)]
    · intro h
      rw [capture_fixed_go]
      simp [h]
  · intro enter exit_ok res fuel n streak henter hexit
    refine ⟨?_, ?_, ?_⟩
    · intro h
      rw [capture_patrol_go]
      simp [h, henter, hexit]
    · intro h hlt
      simp only [PATROL_NO_COLLECT_MAX] at hlt
      rw [capture_patrol_go]
      simp only [h, henter, hexit, if_true, PATROL_NO_COLLECT_MAX]
      rw [if_neg (by omega)]
    · intro h
      rw [capture_patrol_go]
      simp [h, henter]

/-- Witness for C4. -/
theorem C4_witness :
    capture_fixed_go (fun _ => CaptureResult.OK) (0 + 1) 0 5
      = capture_fixed_go (fun _ => CaptureResult.OK) 0 (0 + 1) 0 :=
  (C4_streak_rule.2.1 (fun _ => CaptureResult.OK) 0 0 5).1 rfl

/-- C6: at synchronized-mode startup the longer-period island is
visited first for one full round (enter, capture, classify, exit) and
then the shorter-period island is entered and made the initial resident
zone; in particular, with the partner island fixed at 35 s and the
adventure island on patrol at 1200 s, the interleave period is 1200 s
and the adventure island is visited before the partner island becomes
resident. -/
theorem C6_startup_long_first (profiles : Key → IslandProfile) (modes : Key → Int)
    (om : Nat → Inp)
    (h1 : ∀ n, (om n).onSelect = true)
    (h2 : ∀ n, (om n).enterOk = true)
    (h3 : ∀ n, (om n).exitOk = true)
    (h4 : ∀ n, (om n).captureRes = .OK) :
    ((sync_startup om profiles modes).2
        = [SEv.enterMapEv (long_key profiles modes), SEv.captureEv (long_key profiles modes),
            SEv.enterMapEv (short_key profiles modes)]
      ∧ ∃ s, (sync_startup om profiles modes).1
          = some (short_key profiles modes, long_key profiles modes, s))
    ∧ (sync_every_sec c6profiles c6modes = 1200
        ∧ long_key c6profiles c6modes = Key.adventure
        ∧ short_key c6profiles c6modes = Key.partner
        ∧ (sync_startup c6om c6profiles c6modes).2
            = [SEv.enterMapEv Key.adventure, SEv.captureEv Key.adventure,
                SEv.enterMapEv Key.partner]
        ∧ ∃ s, (sync_startup c6om c6profiles c6modes).1
            = some (Key.partner, Key.adventure, s)) := by
  constructor
  · simp only [sync_startup, enter_island, enter_island_go, do_one_round, mark_result,
      leave_to_select, bumpT, initState, h1, h2, h3, h4, if_true, Bool.not_true,
      Bool.false_eq_true, if_false]
    exact ⟨rfl, ⟨_, rfl⟩⟩
  · refine ⟨by decide, by decide, by decide, by decide, ⟨_, rfl⟩⟩

/-- Witness for C6. -/
theorem C6_witness :
    ((sync_startup c6om c6profiles c6modes).2
        = [SEv.enterMapEv (long_key c6profiles c6modes),
            SEv.captureEv (long_key c6profiles c6modes),
            SEv.enterMapEv (short_key c6profiles c6modes)]
      ∧ ∃ s, (sync_startup c6om c6profiles c6modes).1
          = some (short_key c6profiles c6modes, long_key c6profiles c6modes, s))
    ∧ (sync_every_sec c6profiles c6modes = 1200
        ∧ long_key c6profiles c6modes = Key.adventure
        ∧ short_key c6profiles c6modes = Key.partner
        ∧ (sync_startup c6om c6profiles c6modes).2
            = [SEv.enterMapEv Key.adventure, SEv.captureEv Key.adventure,
                SEv.enterMapEv Key.partner]
        ∧ ∃ s, (sync_startup c6om c6profiles c6modes).1
            = some (Key.partner, Key.adventure, s)) :=
  C6_startup_long_first c6profiles c6modes c6om
    (fun _ => rfl) (fun _ => rfl) (fun _ => rfl) (fun _ => rfl)

theorem retired_bumpT (s : SyncState) (k : Key) : retired (bumpT s) k = retired s k := rfl

theorem retired_setStreak (j : Key) (v : Nat) (s : SyncState) (k : Key) :
    retired (setStreak j v s) k = retired s k := rfl

theorem retired_setDone_self (j : Key) (s : SyncState) :
    retired (setDone j s) j = true := by simp [retired, setDone]

theorem retired_setError_self (j : Key) (s : SyncState) :
    retired (setError j s) j = true := by simp [retired, setError]

theorem retired_setDone_of (j : Key) (s : SyncState) (k : Key)
    (h : retired s k = true) : retired (setDone j s) k = true := by
  simp only [retired, setDone] at h ⊢
  rcases Bool.or_eq_true_iff.mp h with h1 | h1
  · by_cases hk : k = j <;> simp [hk, h1]
  · simp [h1]

theorem retired_setError_of (j : Key) (s : SyncState) (k : Key)
    (h : retired s k = true) : retired (setError j s) k = true := by
  simp only [retired, setError] at h ⊢
  rcases Bool.or_eq_true_iff.mp h with h1 | h1
  · simp [h1]
  · by_cases hk : k = j <;> simp [hk, h1]

theorem noInvoke_nil (k : Key) : noInvoke k [] := by simp [noInvoke]

theorem noInvoke_append {k : Key} {xs ys : List SEv} :
    noInvoke k (xs ++ ys) ↔ noInvoke k xs ∧ noInvoke k ys := by
  constructor
  · intro h
    exact ⟨fun e he => h e (List.mem_append_left _ he),
      fun e he => h e (List.mem_append_right _ he)⟩
  · rintro ⟨ha, hb⟩ e he
    rcases List.mem_append.mp he with h | h
    exacts [ha e h, hb e h]

theorem safeAfter_nil (k : Key) : safeAfter k [] := by
  intro l1 l2 h
  exact absurd h (by simp)

theorem safeAfter_cons {k : Key} {l : List SEv} (e : SEv)
    (h2 : e = SEv.retireEv k → noInvoke k l) (h1 : safeAfter k l) :
    safeAfter k (e :: l) := by
  intro l1 l2 hdec
  cases l1 with
  | nil =>
    simp only [List.nil_append, List.cons.injEq] at hdec
    exact hdec.2 ▸ h2 hdec.1
  | cons a l1t =>
    simp only [List.cons_append, List.cons.injEq] at hdec
    exact h1 l1t l2 hdec.2

theorem safeAfter_append {k : Key} {xs ys : List SEv}
    (hx : safeAfter k xs) (hy : safeAfter k ys)
    (hcross : SEv.retireEv k ∈ xs → noInvoke k ys) :
    safeAfter k (xs ++ ys) := by
  intro l1 l2 hdec
  rcases List.append_eq_append_iff.mp hdec with ⟨m, hm1, hm2⟩ | ⟨m, hm1, hm2⟩
  · exact hy m l2 hm2
  · cases m with
    | nil =>
      simp only [List.nil_append] at hm2
      exact hy [] l2 (by simpa using hm2.symm)
    | cons a t =>
      simp only [List.cons_append, List.cons.injEq] at hm2
      obtain ⟨ha, hl2⟩ := hm2
      subst ha
      have hmem : SEv.retireEv k ∈ xs := hm1 ▸ List.mem_append_right _ (by simp)
      have ht : noInvoke k t := hx l1 t hm1
      rw [hl2]
      exact noInvoke_append.mpr ⟨ht, hcross hmem⟩

theorem enter_island_go_mono (om : Nat → Inp) (j : Key) (s : SyncState) (k : Key)
    (h : retired s k = true) : retired (enter_island_go om j s).2.1 k = true := by
  unfold enter_island_go
  split
  · simpa [retired_bumpT] using h
  · exact retired_setError_of j _ k (by simpa [retired_bumpT] using h)

theorem enter_island_go_noInv (om : Nat → Inp) (j : Key) (s : SyncState) (k : Key)
    (hk : k ≠ j) : noInvoke k (enter_island_go om j s).2.2 := by
  unfold enter_island_go
  split <;> simp [noInvoke, Ne.symm hk]

theorem enter_island_go_retire (om : Nat → Inp) (j : Key) (s : SyncState) (k : Key)
    (h : SEv.retireEv k ∈ (enter_island_go om j s).2.2) :
    retired (enter_island_go om j s).2.1 k = true := by
  unfold enter_island_go at h ⊢
  by_cases hc : (om s.t).enterOk = true
  · simp [hc] at h
  · simp only [hc, if_false] at h ⊢
    have hk : k = j := by simpa using h
    subst hk
    exact retired_setError_self _ _

theorem enter_island_go_retire_key (om : Nat → Inp) (j : Key) (s : SyncState) (k : Key)
    (h : SEv.retireEv k ∈ (enter_island_go om j s).2.2) : k = j := by
  unfold enter_island_go at h
  by_cases hc : (om s.t).enterOk = true
  · simp [hc] at h
  · simp only [hc, if_false] at h
    simpa using h

theorem enter_island_go_safe (om : Nat → Inp) (j : Key) (s : SyncState) (k : Key) :
    safeAfter k (enter_island_go om j s).2.2 := by
  unfold enter_island_go
  split
  · exact safeAfter_cons _ (by simp) (safeAfter_nil k)
  · exact safeAfter_cons _ (by simp)
      (safeAfter_cons _ (fun _ => noInvoke_nil k) (safeAfter_nil k))

theorem enter_island_go_true_trace (om : Nat → Inp) (j : Key) (s : SyncState)
    (h : (enter_island_go om j s).1 = true) :
    (enter_island_go om j s).2.2 = [SEv.enterMapEv j] := by
  unfold enter_island_go at h ⊢
  split at h <;> simp_all

theorem enter_island_mono (om : Nat → Inp) (j : Key) (s : SyncState) (k : Key)
    (h : retired s k = true) : retired (enter_island om j s).2.1 k = true := by
  unfold enter_island
  split
  · exact enter_island_go_mono om j _ k (by simpa [retired_bumpT] using h)
  · split
    · exact enter_island_go_mono om j _ k (by simpa [retired_bumpT] using h)
    · simpa [retired_bumpT] using h

theorem enter_island_noInv (om : Nat → Inp) (j : Key) (s : SyncState) (k : Key)
    (hk : k ≠ j) : noInvoke k (enter_island om j s).2.2 := by
  unfold enter_island
  split
  · exact enter_island_go_noInv om j _ k hk
  · split
    · exact enter_island_go_noInv om j _ k hk
    · exact noInvoke_nil k

theorem enter_island_retire (om : Nat → Inp) (j : Key) (s : SyncState) (k : Key)
    (h : SEv.retireEv k ∈ (enter_island om j s).2.2) :
    retired (enter_island om j s).2.1 k = true := by
  unfold enter_island at h ⊢
  by_cases h1 : (om s.t).onSelect = true
  · simp only [h1, if_true] at h ⊢
    exact enter_island_go_retire om j _ k h
  · by_cases h2 : (om (s.t + 1)).exitOk = true
    · simp only [h1, h2, if_true, if_false] at h ⊢
      exact enter_island_go_retire om j _ k h
    · simp only [h1, h2, if_false] at h
      simp at h

theorem enter_island_retire_key (om : Nat → Inp) (j : Key) (s : SyncState) (k : Key)
    (h : SEv.retireEv k ∈ (enter_island om j s).2.2) : k = j := by
  unfold enter_island at h
  by_cases h1 : (om s.t).onSelect = true
  · simp only [h1, if_true] at h
    exact enter_island_go_retire_key om j _ k h
  · by_cases h2 : (om (s.t + 1)).exitOk = true
    · simp only [h1, h2, if_true, if_false] at h
      exact enter_island_go_retire_key om j _ k h
    · simp only [h1, h2, if_false] at h
      simp at h

theorem enter_island_safe (om : Nat → Inp) (j : Key) (s : SyncState) (k : Key) :
    safeAfter k (enter_island om j s).2.2 := by
  unfold enter_island
  split
  · exact enter_island_go_safe om j _ k
  · split
    · exact enter_island_go_safe om j _ k
    · exact safeAfter_nil k

theorem enter_island_true_trace (om : Nat → Inp) (j : Key) (s : SyncState)
    (h : (enter_island om j s).1 = true) :
    (enter_island om j s).2.2 = [SEv.enterMapEv j] := by
  unfold enter_island at h ⊢
  by_cases h1 : (om s.t).onSelect = true
  · simp only [h1, if_true] at h ⊢
    exact enter_island_go_true_trace om j _ h
  · by_cases h2 : (om (s.t + 1)).exitOk = true
    · simp only [h1, h2, if_true, if_false] at h ⊢
      exact enter_island_go_true_trace om j _ h
    · simp only [h1, h2, if_false] at h
      simp at h

theorem mark_result_mono (modes : Key → Int) (j : Key) (r : CaptureResult) (s : SyncState)
    (k : Key) (h : retired s k = true) :
    retired (mark_result modes j r s).2.1 k = true := by
  cases r with
  | OK => simpa [mark_result, retired_setStreak] using h
  | CAP_REACHED => simpa [mark_result] using retired_setDone_of j s k h
  | NO_COLLECT_HINT =>
    simp only [mark_result]
    generalize (if modes j = MODE_PATROL then PATROL_NO_COLLECT_MAX else FIXED_NO_COLLECT_MAX) = L
    split
    · exact retired_setError_of j _ k (by simpa [retired_setStreak] using h)
    · simpa [retired_setStreak] using h

theorem mark_result_noInv (modes : Key → Int) (j : Key) (r : CaptureResult) (s : SyncState)
    (k : Key) : noInvoke k (mark_result modes j r s).2.2 := by
  cases r with
  | OK => simp [mark_result, noInvoke]
  | CAP_REACHED => simp [mark_result, noInvoke]
  | NO_COLLECT_HINT =>
    simp only [mark_result]
    generalize (if modes j = MODE_PATROL then PATROL_NO_COLLECT_MAX else FIXED_NO_COLLECT_MAX) = L
    split <;> simp [noInvoke]

theorem mark_result_retire (modes : Key → Int) (j : Key) (r : CaptureResult) (s : SyncState)
    (k : Key) (h : SEv.retireEv k ∈ (mark_result modes j r s).2.2) :
    retired (mark_result modes j r s).2.1 k = true := by
  cases r with
  | OK => simp [mark_result] at h
  | CAP_REACHED =>
    simp only [mark_result] at h ⊢
    have hk : k = j := by simpa using h
    subst hk
    exact retired_setDone_self _ _
  | NO_COLLECT_HINT =>
    simp only [mark_result] at h ⊢
    generalize hL : (if modes j = MODE_PATROL then PATROL_NO_COLLECT_MAX else FIXED_NO_COLLECT_MAX) = L at h ⊢
    split at h
    case isTrue hC =>
      rw [if_pos hC]
      have hk : k = j := by simpa using h
      subst hk
      exact retired_setError_self _ _
    case isFalse hC => simp at h

theorem mark_result_false_trace (modes : Key → Int) (j : Key) (r : CaptureResult)
    (s : SyncState) (h : (mark_result modes j r s).1 = false) :
    (mark_result modes j r s).2.2 = [] := by
  cases r with
  | OK => rfl
  | CAP_REACHED => simp [mark_result] at h
  | NO_COLLECT_HINT =>
    simp only [mark_result] at h ⊢
    generalize hL : (if modes j = MODE_PATROL then PATROL_NO_COLLECT_MAX else FIXED_NO_COLLECT_MAX) = L at h ⊢
    split at h
    case isTrue hC => simp at h
    case isFalse hC => rw [if_neg hC]

theorem mark_result_safe (modes : Key → Int) (j : Key) (r : CaptureResult) (s : SyncState)
    (k : Key) : safeAfter k (mark_result modes j r s).2.2 := by
  cases r with
  | OK => exact safeAfter_nil k
  | CAP_REACHED =>
    exact safeAfter_cons _ (fun _ => noInvoke_nil k) (safeAfter_nil k)
  | NO_COLLECT_HINT =>
    simp only [mark_result]
    generalize (if modes j = MODE_PATROL then PATROL_NO_COLLECT_MAX else FIXED_NO_COLLECT_MAX) = L
    split
    · exact safeAfter_cons _ (fun _ => noInvoke_nil k) (safeAfter_nil k)
    · exact safeAfter_nil k

theorem leave_to_select_retired (om : Nat → Inp) (s : SyncState) (k : Key) :
    retired (leave_to_select om s).2 k = retired s k := by
  unfold leave_to_select
  split <;> rfl

theorem do_one_round_mono (om : Nat → Inp) (j : Key) (s : SyncState) (k : Key)
    (h : retired s k = true) : retired (do_one_round om j s).2.1 k = true := by
  simp only [do_one_round]
  split
  · simpa [retired_bumpT] using h
  · exact retired_setError_of j _ k (by simpa [retired_bumpT] using h)

theorem do_one_round_noInv (om : Nat → Inp) (j : Key) (s : SyncState) (k : Key)
    (hk : k ≠ j) : noInvoke k (do_one_round om j s).2.2 := by
  simp only [do_one_round]
  split <;> simp [noInvoke, Ne.symm hk]

theorem do_one_round_retire (om : Nat → Inp) (j : Key) (s : SyncState) (k : Key)
    (h : SEv.retireEv k ∈ (do_one_round om j s).2.2) :
    retired (do_one_round om j s).2.1 k = true := by
  simp only [do_one_round] at h ⊢
  by_cases hc : (om (bumpT s).t).exitOk = true
  · simp [hc] at h
  · simp only [hc, if_false] at h ⊢
    have hk : k = j := by simpa using h
    subst hk
    exact retired_setError_self _ _

theorem do_one_round_retire_key (om : Nat → Inp) (j : Key) (s : SyncState) (k : Key)
    (h : SEv.retireEv k ∈ (do_one_round om j s).2.2) : k = j := by
  simp only [do_one_round] at h
  by_cases hc : (om (bumpT s).t).exitOk = true
  · simp [hc] at h
  · simp only [hc, if_false] at h
    simpa using h

theorem do_one_round_safe (om : Nat → Inp) (j : Key) (s : SyncState) (k : Key) :
    safeAfter k (do_one_round om j s).2.2 := by
  simp only [do_one_round]
  split
  · exact safeAfter_cons _ (by simp) (safeAfter_nil k)
  · exact safeAfter_cons _ (by simp)
      (safeAfter_cons _ (fun _ => noInvoke_nil k) (safeAfter_nil k))

theorem sync_interleave_mono (om : Nat → Inp) (modes : Key → Int) (c o : Key)
    (s : SyncState) (k : Key) (h : retired s k = true) :
    retired (sync_interleave om modes c o s).1 k = true := by
  by_cases he : (enter_island om o s).1 = true
  · simp only [sync_interleave]
    rw [if_pos he]
    split
    · exact enter_island_mono _ _ _ _
        (mark_result_mono _ _ _ _ _ (do_one_round_mono _ _ _ _ (enter_island_mono _ _ _ _ h)))
    · exact mark_result_mono _ _ _ _ _
        (do_one_round_mono _ _ _ _ (enter_island_mono _ _ _ _ h))
  · simp only [sync_interleave]
    rw [if_neg he]
    split
    · exact enter_island_mono _ _ _ _ (enter_island_mono _ _ _ _ h)
    · exact enter_island_mono _ _ _ _ h

theorem sync_interleave_noInv (om : Nat → Inp) (modes : Key → Int) (c o : Key)
    (s : SyncState) (k : Key) (hkc : k ≠ c) (hko : k ≠ o) (h : retired s k = true) :
    noInvoke k (sync_interleave om modes c o s).2 := by
  by_cases he : (enter_island om o s).1 = true
  · simp only [sync_interleave]
    rw [if_pos he]
    split
    · exact noInvoke_append.mpr
        ⟨noInvoke_append.mpr ⟨enter_island_noInv _ _ _ _ hko,
          noInvoke_append.mpr ⟨do_one_round_noInv _ _ _ _ hko, mark_result_noInv _ _ _ _ _⟩⟩,
          enter_island_noInv _ _ _ _ hkc⟩
    · exact noInvoke_append.mpr ⟨enter_island_noInv _ _ _ _ hko,
        noInvoke_append.mpr ⟨do_one_round_noInv _ _ _ _ hko, mark_result_noInv _ _ _ _ _⟩⟩
  · simp only [sync_interleave]
    rw [if_neg he]
    split
    · exact noInvoke_append.mpr
        ⟨enter_island_noInv _ _ _ _ hko, enter_island_noInv _ _ _ _ hkc⟩
    · exact enter_island_noInv _ _ _ _ hko

theorem sync_interleave_retire (om : Nat → Inp) (modes : Key → Int) (c o : Key)
    (s : SyncState) (k : Key)
    (h : SEv.retireEv k ∈ (sync_interleave om modes c o s).2) :
    retired (sync_interleave om modes c o s).1 k = true := by
  by_cases he : (enter_island om o s).1 = true
  · simp only [sync_interleave] at h ⊢
    rw [if_pos he] at h ⊢
    split at h
    next hg =>
      rw [if_pos hg]
      rcases List.mem_append.mp h with h1 | h1
      · rcases List.mem_append.mp h1 with h2 | h2
        · rw [enter_island_true_trace om o s he] at h2
          simp at h2
        · rcases List.mem_append.mp h2 with h3 | h3
          · exact enter_island_mono _ _ _ _
              (mark_result_mono _ _ _ _ _ (do_one_round_retire _ _ _ _ h3))
          · exact enter_island_mono _ _ _ _ (mark_result_retire _ _ _ _ _ h3)
      · exact enter_island_retire _ _ _ _ h1
    next hg =>
      rw [if_neg hg]
      rcases List.mem_append.mp h with h2 | h2
      · rw [enter_island_true_trace om o s he] at h2
        simp at h2
      · rcases List.mem_append.mp h2 with h3 | h3
        · exact mark_result_mono _ _ _ _ _ (do_one_round_retire _ _ _ _ h3)
        · exact mark_result_retire _ _ _ _ _ h3
  · simp only [sync_interleave] at h ⊢
    rw [if_neg he] at h ⊢
    split at h
    next hg =>
      rw [if_pos hg]
      rcases List.mem_append.mp h with h1 | h1
      · exact enter_island_mono _ _ _ _ (enter_island_retire _ _ _ _ h1)
      · exact enter_island_retire _ _ _ _ h1
    next hg =>
      rw [if_neg hg]
      exact enter_island_retire _ _ _ _ h

theorem sync_interleave_safe (om : Nat → Inp) (modes : Key → Int) (c o : Key)
    (s : SyncState) (k : Key) :
    safeAfter k (sync_interleave om modes c o s).2 := by
  by_cases he : (enter_island om o s).1 = true
  · simp only [sync_interleave]
    rw [if_pos he]
    have hfirst : safeAfter k
        ((enter_island om o s).2.2
          ++ ((do_one_round om o (enter_island om o s).2.1).2.2
            ++ (mark_result modes o (do_one_round om o (enter_island om o s).2.1).1
                (do_one_round om o (enter_island om o s).2.1).2.1).2.2)) := by
      refine safeAfter_append (enter_island_safe _ _ _ _)
        (safeAfter_append (do_one_round_safe _ _ _ _) (mark_result_safe _ _ _ _ _)
          (fun _ => mark_result_noInv _ _ _ _ _)) ?_
      intro hmem
      rw [enter_island_true_trace om o s he] at hmem
      simp at hmem
    split
    next hg =>
      refine safeAfter_append hfirst (enter_island_safe _ _ _ _) ?_
      intro hmem
      have hg2 : retired (mark_result modes o (do_one_round om o (enter_island om o s).2.1).1
          (do_one_round om o (enter_island om o s).2.1).2.1).2.1 c = false := by
        rw [Bool.not_eq_true'] at hg
        exact hg
      have hk : retired (mark_result modes o (do_one_round om o (enter_island om o s).2.1).1
          (do_one_round om o (enter_island om o s).2.1).2.1).2.1 k = true := by
        rcases List.mem_append.mp hmem with h1 | h1
        · rw [enter_island_true_trace om o s he] at h1
          simp at h1
        · rcases List.mem_append.mp h1 with h2 | h2
          · exact mark_result_mono _ _ _ _ _ (do_one_round_retire _ _ _ _ h2)
          · exact mark_result_retire _ _ _ _ _ h2
      have hkc : k ≠ c := by
        intro hkk
        rw [hkk] at hk
        rw [hk] at hg2
        exact absurd hg2 (by simp)
      exact enter_island_noInv _ _ _ _ hkc
    next hg => exact hfirst
  · simp only [sync_interleave]
    rw [if_neg he]
    split
    next hg =>
      refine safeAfter_append (enter_island_safe _ _ _ _) (enter_island_safe _ _ _ _) ?_
      intro hmem
      have hg2 : retired (enter_island om o s).2.1 c = false := by
        rw [Bool.not_eq_true'] at hg
        exact hg
      have hk : retired (enter_island om o s).2.1 k = true :=
        enter_island_retire _ _ _ _ hmem
      have hkc : k ≠ c := by
        intro hkk
        rw [hkk] at hk
        rw [hk] at hg2
        exact absurd hg2 (by simp)
      exact enter_island_noInv _ _ _ _ hkc
    next hg => exact enter_island_safe _ _ _ _

theorem noInvoke_cons {k : Key} {e : SEv} {l : List SEv}
    (h1 : e ≠ SEv.enterMapEv k ∧ e ≠ SEv.captureEv k) (h2 : noInvoke k l) :
    noInvoke k (e :: l) := by
  intro x hx
  rcases List.mem_cons.mp hx with rfl | hx
  · exact h1
  · exact h2 x hx

theorem sync_capture_phase_noInv (om : Nat → Inp) (modes : Key → Int) (current other : Key)
    (s : SyncState) (k : Key) (hk : k ≠ current) (hr : retired s k = true) :
    noInvoke k (sync_capture_phase om modes current other s).2
    ∧ ∀ c1 o1 sf, (sync_capture_phase om modes current other s).1 = some (c1, o1, sf) →
        retired sf k = true := by
  have hs1 : retired (mark_result modes current (om s.t).captureRes (bumpT s)).2.1 k = true :=
    mark_result_mono _ _ _ _ _ (by rwa [retired_bumpT])
  have hnoc : noInvoke k (SEv.captureEv current
      :: (mark_result modes current (om s.t).captureRes (bumpT s)).2.2) :=
    noInvoke_cons ⟨by simp, by simpa using Ne.symm hk⟩ (mark_result_noInv _ _ _ _ _)
  simp only [sync_capture_phase]
  split
  · split
    · refine ⟨hnoc, ?_⟩
      intro c1 o1 sf hout
      simp only [Option.some.injEq, Prod.mk.injEq] at hout
      obtain ⟨_, _, h3⟩ := hout
      subst h3
      rw [leave_to_select_retired]
      exact hs1
    · exact ⟨hnoc, by intro c1 o1 sf hout; simp at hout⟩
  · split
    · split
      · exact ⟨hnoc, by intro c1 o1 sf hout; simp at hout⟩
      · split
        · rename_i hns
          have hko : k ≠ other := by
            intro hkk
            subst hkk
            rcases (Bool.and_eq_true _ _).mp hns with ⟨h1, _⟩
            rw [Bool.not_eq_true'] at h1
            rw [hs1] at h1
            exact absurd h1 (by simp)
          have hrl : retired (leave_to_select om
              (bumpT (mark_result modes current (om s.t).captureRes (bumpT s)).2.1)).2 k
              = true := by
            rw [leave_to_select_retired, retired_bumpT]
            exact hs1
          refine ⟨noInvoke_append.mpr ⟨hnoc, sync_interleave_noInv _ _ _ _ _ _ hk hko hrl⟩, ?_⟩
          intro c1 o1 sf hout
          simp only [Option.some.injEq, Prod.mk.injEq] at hout
          obtain ⟨_, _, h3⟩ := hout
          subst h3
          exact sync_interleave_mono _ _ _ _ _ _ hrl
        · have hrl : retired (leave_to_select om
              (bumpT (mark_result modes current (om s.t).captureRes (bumpT s)).2.1)).2 k
              = true := by
            rw [leave_to_select_retired, retired_bumpT]
            exact hs1
          refine ⟨noInvoke_append.mpr ⟨hnoc, enter_island_noInv _ _ _ _ hk⟩, ?_⟩
          intro c1 o1 sf hout
          simp only [Option.some.injEq, Prod.mk.injEq] at hout
          obtain ⟨_, _, h3⟩ := hout
          subst h3
          exact enter_island_mono _ _ _ _ hrl
    · split
      · rename_i hns
        split
        · exact ⟨hnoc, by intro c1 o1 sf hout; simp at hout⟩
        · have hko : k ≠ other := by
            intro hkk
            subst hkk
            rcases (Bool.and_eq_true _ _).mp hns with ⟨h1, _⟩
            rw [Bool.not_eq_true'] at h1
            rw [hs1] at h1
            exact absurd h1 (by simp)
          have hrl : retired (leave_to_select om
              (bumpT (mark_result modes current (om s.t).captureRes (bumpT s)).2.1)).2 k
              = true := by
            rw [leave_to_select_retired, retired_bumpT]
            exact hs1
          refine ⟨noInvoke_append.mpr ⟨hnoc, sync_interleave_noInv _ _ _ _ _ _ hk hko hrl⟩, ?_⟩
          intro c1 o1 sf hout
          simp only [Option.some.injEq, Prod.mk.injEq] at hout
          obtain ⟨_, _, h3⟩ := hout
          subst h3
          exact sync_interleave_mono _ _ _ _ _ _ hrl
      · refine ⟨hnoc, ?_⟩
        intro c1 o1 sf hout
        simp only [Option.some.injEq, Prod.mk.injEq] at hout
        obtain ⟨_, _, h3⟩ := hout
        subst h3
        rw [retired_bumpT]
        exact hs1

theorem sync_capture_phase_safe (om : Nat → Inp) (modes : Key → Int) (current other : Key)
    (s : SyncState) (k : Key) :
    safeAfter k (sync_capture_phase om modes current other s).2
    ∧ (SEv.retireEv k ∈ (sync_capture_phase om modes current other s).2 →
        ∀ c1 o1 sf, (sync_capture_phase om modes current other s).1 = some (c1, o1, sf) →
          retired sf k = true) := by
  have hsafe1 : safeAfter k (SEv.captureEv current
      :: (mark_result modes current (om s.t).captureRes (bumpT s)).2.2) :=
    safeAfter_cons _ (by simp) (mark_result_safe _ _ _ _ _)
  simp only [sync_capture_phase]
  split
  · split
    · refine ⟨hsafe1, ?_⟩
      intro hmem c1 o1 sf hout
      simp only [Option.some.injEq, Prod.mk.injEq] at hout
      obtain ⟨_, _, h3⟩ := hout
      subst h3
      rw [leave_to_select_retired]
      rcases List.mem_cons.mp hmem with he | he
      · exact absurd he (by simp)
      · exact mark_result_retire _ _ _ _ _ he
    · exact ⟨hsafe1, by intro _ c1 o1 sf hout; simp at hout⟩
  · rename_i hA
    have hmr : (mark_result modes current (om s.t).captureRes (bumpT s)).2.2 = [] :=
      mark_result_false_trace _ _ _ _ (Bool.eq_false_iff.mpr hA)
    split
    · split
      · exact ⟨hsafe1, by intro _ c1 o1 sf hout; simp at hout⟩
      · split
        · refine ⟨?_, ?_⟩
          · rw [hmr]
            refine safeAfter_append (safeAfter_cons _ (by simp) (safeAfter_nil k))
              (sync_interleave_safe _ _ _ _ _ _) ?_
            intro hmem
            simp at hmem
          · intro hmem c1 o1 sf hout
            simp only [Option.some.injEq, Prod.mk.injEq] at hout
            obtain ⟨_, _, h3⟩ := hout
            subst h3
            rw [hmr] at hmem
            rcases List.mem_append.mp hmem with he | he
            · simp at he
            · exact sync_interleave_retire _ _ _ _ _ _ he
        · refine ⟨?_, ?_⟩
          · rw [hmr]
            refine safeAfter_append (safeAfter_cons _ (by simp) (safeAfter_nil k))
              (enter_island_safe _ _ _ _) ?_
            intro hmem
            simp at hmem
          · intro hmem c1 o1 sf hout
            simp only [Option.some.injEq, Prod.mk.injEq] at hout
            obtain ⟨_, _, h3⟩ := hout
            subst h3
            rw [hmr] at hmem
            rcases List.mem_append.mp hmem with he | he
            · simp at he
            · exact enter_island_retire _ _ _ _ he
    · split
      · split
        · exact ⟨hsafe1, by intro _ c1 o1 sf hout; simp at hout⟩
        · refine ⟨?_, ?_⟩
          · rw [hmr]
            refine safeAfter_append (safeAfter_cons _ (by simp) (safeAfter_nil k))
              (sync_interleave_safe _ _ _ _ _ _) ?_
            intro hmem
            simp at hmem
          · intro hmem c1 o1 sf hout
            simp only [Option.some.injEq, Prod.mk.injEq] at hout
            obtain ⟨_, _, h3⟩ := hout
            subst h3
            rw [hmr] at hmem
            rcases List.mem_append.mp hmem with he | he
            · simp at he
            · exact sync_interleave_retire _ _ _ _ _ _ he
      · refine ⟨hsafe1, ?_⟩
        intro hmem c1 o1 sf hout
        rw [hmr] at hmem
        simp at hmem

theorem mark_result_retire_key (modes : Key → Int) (j : Key) (r : CaptureResult)
    (s : SyncState) (k : Key) (h : SEv.retireEv k ∈ (mark_result modes j r s).2.2) :
    k = j := by
  cases r with
  | OK => simp [mark_result] at h
  | CAP_REACHED => simpa [mark_result] using h
  | NO_COLLECT_HINT =>
    simp only [mark_result] at h
    generalize hL : (if modes j = MODE_PATROL then PATROL_NO_COLLECT_MAX else FIXED_NO_COLLECT_MAX) = L at h
    split at h
    · simpa using h
    · simp at h

theorem sync_step_noInv (om : Nat → Inp) (modes : Key → Int) (current other : Key)
    (s : SyncState) (k : Key) (hr : retired s k = true) :
    noInvoke k (sync_step om modes current other s).2
    ∧ ∀ c1 o1 sf, (sync_step om modes current other s).1 = some (c1, o1, sf) →
        retired sf k = true := by
  simp only [sync_step]
  split
  · exact ⟨noInvoke_nil k, by intro c1 o1 sf h; simp at h⟩
  · split
    · split
      · exact ⟨noInvoke_nil k, by intro c1 o1 sf h; simp at h⟩
      · rename_i hoth
        have hko : k ≠ other := by
          intro hkk
          subst hkk
          exact hoth hr
        split
        · rename_i he
          have hph := sync_capture_phase_noInv om modes other current
            (enter_island om other s).2.1 k hko (enter_island_mono _ _ _ _ hr)
          exact ⟨noInvoke_append.mpr ⟨enter_island_noInv _ _ _ _ hko, hph.1⟩, hph.2⟩
        · refine ⟨enter_island_noInv _ _ _ _ hko, ?_⟩
          intro c1 o1 sf hout
          simp only [Option.some.injEq, Prod.mk.injEq] at hout
          obtain ⟨_, _, h3⟩ := hout
          subst h3
          exact enter_island_mono _ _ _ _ hr
    · rename_i hcur
      have hk : k ≠ current := by
        intro hkk
        subst hkk
        exact hcur hr
      exact sync_capture_phase_noInv om modes current other s k hk hr

theorem sync_step_safe (om : Nat → Inp) (modes : Key → Int) (current other : Key)
    (s : SyncState) (k : Key) :
    safeAfter k (sync_step om modes current other s).2
    ∧ (SEv.retireEv k ∈ (sync_step om modes current other s).2 →
        ∀ c1 o1 sf, (sync_step om modes current other s).1 = some (c1, o1, sf) →
          retired sf k = true) := by
  simp only [sync_step]
  split
  · exact ⟨safeAfter_nil k, by intro h; simp at h⟩
  · split
    · split
      · exact ⟨safeAfter_nil k, by intro h; simp at h⟩
      · split
        · rename_i he
          have hph := sync_capture_phase_safe om modes other current
            (enter_island om other s).2.1 k
          refine ⟨?_, ?_⟩
          · rw [enter_island_true_trace om other s he]
            refine safeAfter_append (safeAfter_cons _ (by simp) (safeAfter_nil k)) hph.1 ?_
            intro hmem
            simp at hmem
          · intro hmem c1 o1 sf hout
            rw [enter_island_true_trace om other s he] at hmem
            rcases List.mem_append.mp hmem with he2 | he2
            · simp at he2
            · exact hph.2 he2 c1 o1 sf hout
        · refine ⟨enter_island_safe _ _ _ _, ?_⟩
          intro hmem c1 o1 sf hout
          simp only [Option.some.injEq, Prod.mk.injEq] at hout
          obtain ⟨_, _, h3⟩ := hout
          subst h3
          exact enter_island_retire _ _ _ _ hmem
    · exact sync_capture_phase_safe om modes current other s k

theorem sync_main_noInv (om : Nat → Inp) (modes : Key → Int) (k : Key) :
    ∀ (fuel : Nat) (c o : Key) (s : SyncState), retired s k = true →
      noInvoke k (sync_main om modes fuel c o s) := by
  intro fuel
  induction fuel with
  | zero => intro c o s _; exact noInvoke_nil k
  | succ f ih =>
    intro c o s hr
    simp only [sync_main]
    have hfacts := sync_step_noInv om modes c o s k hr
    rcases hst : sync_step om modes c o s with ⟨out, evs⟩
    rw [hst] at hfacts
    cases out with
    | none => exact hfacts.1
    | some cos =>
      rcases cos with ⟨c1, o1, s1⟩
      show noInvoke k (evs ++ sync_main om modes f c1 o1 s1)
      exact noInvoke_append.mpr ⟨hfacts.1, ih c1 o1 s1 (hfacts.2 c1 o1 s1 rfl)⟩

theorem sync_main_safe (om : Nat → Inp) (modes : Key → Int) (k : Key) :
    ∀ (fuel : Nat) (c o : Key) (s : SyncState), safeAfter k (sync_main om modes fuel c o s) := by
  intro fuel
  induction fuel with
  | zero => intro c o s; exact safeAfter_nil k
  | succ f ih =>
    intro c o s
    simp only [sync_main]
    have hsafe := sync_step_safe om modes c o s k
    rcases hst : sync_step om modes c o s with ⟨out, evs⟩
    rw [hst] at hsafe
    cases out with
    | none => exact hsafe.1
    | some cos =>
      rcases cos with ⟨c1, o1, s1⟩
      show safeAfter k (evs ++ sync_main om modes f c1 o1 s1)
      refine safeAfter_append hsafe.1 (ih c1 o1 s1) ?_
      intro hmem
      exact sync_main_noInv om modes k f c1 o1 s1 (hsafe.2 hmem c1 o1 s1 rfl)

theorem short_key_ne_long_key (profiles : Key → IslandProfile) (modes : Key → Int) :
    short_key profiles modes ≠ long_key profiles modes := by
  unfold short_key
  split
  · rename_i h
    rw [h]
    simp
  · rename_i h
    intro hh
    exact h hh.symm

theorem sync_startup_success_facts (om : Nat → Inp) (modes : Key → Int) (lk : Key)
    (s1 : SyncState) (k : Key) :
    safeAfter k ([SEv.enterMapEv lk] ++ ((do_one_round om lk s1).2.2
        ++ (mark_result modes lk (do_one_round om lk s1).1 (do_one_round om lk s1).2.1).2.2))
    ∧ (SEv.retireEv k ∈ [SEv.enterMapEv lk] ++ ((do_one_round om lk s1).2.2
        ++ (mark_result modes lk (do_one_round om lk s1).1 (do_one_round om lk s1).2.1).2.2) →
      retired (mark_result modes lk (do_one_round om lk s1).1
          (do_one_round om lk s1).2.1).2.1 k = true
        ∧ k = lk) := by
  constructor
  · refine safeAfter_append (safeAfter_cons _ (by simp) (safeAfter_nil k))
      (safeAfter_append (do_one_round_safe _ _ _ _) (mark_result_safe _ _ _ _ _)
        (fun _ => mark_result_noInv _ _ _ _ _)) ?_
    intro hmem
    simp at hmem
  · intro hmem
    rcases List.mem_append.mp hmem with hm | hm
    · simp at hm
    · rcases List.mem_append.mp hm with hm2 | hm2
      · exact ⟨mark_result_mono _ _ _ _ _ (do_one_round_retire _ _ _ _ hm2),
          do_one_round_retire_key _ _ _ _ hm2⟩
      · exact ⟨mark_result_retire _ _ _ _ _ hm2, mark_result_retire_key _ _ _ _ _ hm2⟩

theorem sync_startup_safe (om : Nat → Inp) (profiles : Key → IslandProfile)
    (modes : Key → Int) (k : Key) :
    safeAfter k (sync_startup om profiles modes).2
    ∧ (SEv.retireEv k ∈ (sync_startup om profiles modes).2 →
        ∀ c1 o1 sf, (sync_startup om profiles modes).1 = some (c1, o1, sf) →
          retired sf k = true) := by
  have hne : long_key profiles modes ≠ short_key profiles modes :=
    fun hh => short_key_ne_long_key profiles modes hh.symm
  simp only [sync_startup]
  split
  · -- the long-period island could not be entered
    have hsafeA : safeAfter k ((enter_island om (long_key profiles modes) initState).2.2
        ++ (enter_island om (short_key profiles modes)
            (enter_island om (long_key profiles modes) initState).2.1).2.2) := by
      refine safeAfter_append (enter_island_safe _ _ _ _) (enter_island_safe _ _ _ _) ?_
      intro hmem
      have hkey := enter_island_retire_key _ _ _ _ hmem
      subst hkey
      exact enter_island_noInv _ _ _ _ hne
    split
    · exact ⟨hsafeA, by intro _ c1 o1 sf hout; simp at hout⟩
    · refine ⟨hsafeA, ?_⟩
      intro hmem c1 o1 sf hout
      simp only [Option.some.injEq, Prod.mk.injEq] at hout
      obtain ⟨_, _, h3⟩ := hout
      subst h3
      rcases List.mem_append.mp hmem with hm | hm
      · exact enter_island_mono _ _ _ _ (enter_island_retire _ _ _ _ hm)
      · exact enter_island_retire _ _ _ _ hm
  · rename_i h1
    have he1 : (enter_island om (long_key profiles modes) initState).1 = true := by
      simpa using h1
    rw [enter_island_true_trace _ _ _ he1]
    have hfacts := sync_startup_success_facts om modes (long_key profiles modes)
      (enter_island om (long_key profiles modes) initState).2.1 k
    split
    · exact ⟨hfacts.1, by intro _ c1 o1 sf hout; simp at hout⟩
    · rename_i s4 heq
      have hpres : retired (mark_result modes (long_key profiles modes)
          (do_one_round om (long_key profiles modes)
            (enter_island om (long_key profiles modes) initState).2.1).1
          (do_one_round om (long_key profiles modes)
            (enter_island om (long_key profiles modes) initState).2.1).2.1).2.1 k = true →
          retired s4 k = true := by
        intro hres
        split at heq
        · simp only [Option.some.injEq] at heq
          subst heq
          rwa [retired_bumpT]
        · split at heq
          · simp only [Option.some.injEq] at heq
            subst heq
            rw [leave_to_select_retired, retired_bumpT]
            exact hres
          · split at heq
            · simp only [Option.some.injEq] at heq
              subst heq
              rw [retired_bumpT, leave_to_select_retired, retired_bumpT]
              exact hres
            · simp at heq
      have hsafeB : safeAfter k (([SEv.enterMapEv (long_key profiles modes)]
          ++ ((do_one_round om (long_key profiles modes)
                (enter_island om (long_key profiles modes) initState).2.1).2.2
            ++ (mark_result modes (long_key profiles modes)
                (do_one_round om (long_key profiles modes)
                  (enter_island om (long_key profiles modes) initState).2.1).1
                (do_one_round om (long_key profiles modes)
                  (enter_island om (long_key profiles modes) initState).2.1).2.1).2.2))
          ++ (enter_island om (short_key profiles modes) s4).2.2) := by
        refine safeAfter_append hfacts.1 (enter_island_safe _ _ _ _) ?_
        intro hmem
        have hk := (hfacts.2 hmem).2
        subst hk
        exact enter_island_noInv _ _ _ _ hne
      split
      · exact ⟨hsafeB, by intro _ c1 o1 sf hout; simp at hout⟩
      · refine ⟨hsafeB, ?_⟩
        intro hmem c1 o1 sf hout
        simp only [Option.some.injEq, Prod.mk.injEq] at hout
        obtain ⟨_, _, h3⟩ := hout
        subst h3
        rcases List.mem_append.mp hmem with hm | hm
        · exact enter_island_mono _ _ _ _ (hpres (hfacts.2 hm).1)
        · exact enter_island_retire _ _ _ _ hm

/-- C5: in synchronized mode, once a zone is retired (its `done` or
`error` flag set, recorded as a `retireEv` in the operation trace),
no `enter_map` and no `capture_once` operation for that zone occurs
anywhere later in the run's trace — covering the startup round,
residency swaps and interleave visits alike. -/
theorem C5_no_invoke_after_retire (om : Nat → Inp) (profiles : Key → IslandProfile)
    (modes : Key → Int) (fuel : Nat) (k : Key) (l1 l2 : List SEv)
    (h : sync_capture_loop om profiles modes fuel = l1 ++ SEv.retireEv k :: l2) :
    ∀ e ∈ l2, e ≠ SEv.enterMapEv k ∧ e ≠ SEv.captureEv k := by
  have hsafe : safeAfter k (sync_capture_loop om profiles modes fuel) := by
    have hsu := sync_startup_safe om profiles modes k
    simp only [sync_capture_loop]
    rcases hs : sync_startup om profiles modes with ⟨out, evs⟩
    rw [hs] at hsu
    cases out with
    | none => exact hsu.1
    | some cos =>
      rcases cos with ⟨c, o, s⟩
      show safeAfter k (evs ++ sync_main om modes fuel c o s)
      refine safeAfter_append hsu.1 (sync_main_safe om modes k fuel c o s) ?_
      intro hmem
      exact sync_main_noInv om modes k fuel c o s (hsu.2 hmem c o s rfl)
  exact hsafe l1 l2 h

/-- Witness for C5: a run where the adventure island hits the daily cap
on the startup round; the only operation after its retirement is on the
partner island. -/
theorem C5_witness :
    SEv.enterMapEv Key.partner ≠ SEv.enterMapEv Key.adventure
      ∧ SEv.enterMapEv Key.partner ≠ SEv.captureEv Key.adventure :=
  C5_no_invoke_after_retire c5om c5profiles c5modes 0 Key.adventure
    [SEv.enterMapEv Key.adventure, SEv.captureEv Key.adventure]
    [SEv.enterMapEv Key.partner]
    (by decide)
    (SEv.enterMapEv Key.partner) (by simp)

end CapturePals
